import Mathlib

/-!
Verification of the sfdx-bulk-helper library (SalesforceDX bulk data helper).

The development shallowly embeds the two revisions of `sfdx-bulk-helper.js`:
the legacy revision (V1) and the refined revision (V2).  Strings are embedded
as `List Char`, JavaScript `indexOf`-based substring tests as the `leads` /
`inside` predicates below, JSON payloads as a `Payload` structure whose
`status` field is optional (a JS object may lack the key), and the
promise-based control flow of `executeSFDXCommand`, `bulkRequest` and
`bulkQueryAndDelete` as explicit outcome types (including a `pending`
outcome for promises that are never settled because a rejection has no
handler, and an `unsettled` outcome for exceptions thrown inside callbacks).
-/

namespace SfdxBulkHelper

/-- `leads p s`: the list `p` is an initial segment of `s`
(JS `s.indexOf(p) === 0`). -/
def leads : List Char → List Char → Prop
  | [], _ => True
  | _ :: _, [] => False
  | a :: p, b :: s => a = b ∧ leads p s

def leadsDec : (p s : List Char) → Decidable (leads p s)
  | [], _ => .isTrue trivial
  | _ :: _, [] => .isFalse (fun h => h)
  | a :: p, b :: s =>
    have : Decidable (leads p s) := leadsDec p s
    inferInstanceAs (Decidable (a = b ∧ leads p s))

instance (p s : List Char) : Decidable (leads p s) := leadsDec p s

/-- `inside p s`: the list `p` occurs as a contiguous run somewhere in `s`
(JS `s.indexOf(p) >= 0`). -/
def inside (p : List Char) : List Char → Prop
  | [] => leads p []
  | b :: s => leads p (b :: s) ∨ inside p s

def insideDec (p : List Char) : (s : List Char) → Decidable (inside p s)
  | [] => inferInstanceAs (Decidable (leads p []))
  | b :: s =>
    have : Decidable (inside p s) := insideDec p s
    inferInstanceAs (Decidable (leads p (b :: s) ∨ inside p s))

instance (p s : List Char) : Decidable (inside p s) := insideDec p s

/-- `ends p s`: the list `p` is a final segment of `s`. -/
def ends (p s : List Char) : Prop := leads p.reverse s.reverse

instance (p s : List Char) : Decidable (ends p s) :=
  inferInstanceAs (Decidable (leads p.reverse s.reverse))

/-- Number of positions of `s` at which the pattern `p` occurs. -/
def countOcc (p : List Char) : List Char → Nat
  | [] => 0
  | b :: s => (if leads p (b :: s) then 1 else 0) + countOcc p s

/-! ### Command normalization (`executeSFDXCommand`, refined revision)

The refined `executeSFDXCommand` rewrites the received command string:
it puts `sfdx ` in front unless the command already starts with it,
appends ` --json` unless `cmd.indexOf(' --json') >= 0`, and appends
` --targetusername <username>` unless `cmd.indexOf('-u ') >= 0` or
`cmd.indexOf('--targetusername ') >= 0`.  All three tests are raw
substring searches on the original `cmd`. -/

def sfdxHead : List Char := ("sfdx ").toList

def jsonFlag : List Char := (" --json").toList

def shortUserPat : List Char := ("-u ").toList

def longUserPat : List Char := ("--targetusername ").toList

def targetFlagHead : List Char := (" --targetusername ").toList

def withSfdx (cmd : List Char) : List Char :=
  if leads sfdxHead cmd then cmd else sfdxHead ++ cmd

def addJson (cmd c : List Char) : List Char :=
  if inside jsonFlag cmd then c else c ++ jsonFlag

def addTargetUser (username cmd c : List Char) : List Char :=
  if inside shortUserPat cmd ∨ inside longUserPat cmd then c
  else c ++ targetFlagHead ++ username

/-- The full command rewriting performed by the refined
`executeSFDXCommand` before the shell is invoked. -/
def normalizeCommandV2 (username cmd : List Char) : List Char :=
  addTargetUser username cmd (addJson cmd (withSfdx cmd))

/-! ### Executor outcomes (`executeSFDXCommand`) -/

/-- A parsed JSON payload returned by the sfdx CLI: an optional numeric
`status`, an optional `message`, and an operation-specific `result` body. -/
structure Payload (R : Type) where
  status : Option Int
  message : Option String
  result : R
deriving DecidableEq

/-- What the shell invocation produced: an error passed to the `exec`
callback, or a captured output file whose content either parses as JSON
(`some payload`) or makes `JSON.parse` throw (`none`). -/
inductive ShellExec (R : Type) where
  | shellErr
  | output (parsed : Option (Payload R))
deriving DecidableEq

/-- How one `executeSFDXCommand` promise ends. `unsettled` is the case in
which an exception escapes the `exec` callback (`JSON.parse` throwing), so
neither `resolve` nor `reject` is ever called. -/
inductive ExecutorOutcome (R : Type) where
  | resolved (p : Payload R)
  | rejectedShellError
  | rejectedPayload (p : Payload R)
  | unsettled
deriving DecidableEq

/-- Outcome of one executor invocation together with whether the temporary
output-capture file was deleted (the `tmp` cleanup callback invoked)
during the invocation. -/
structure ExecutorTrace (R : Type) where
  outcome : ExecutorOutcome R
  tmpFileDeleted : Bool
deriving DecidableEq

/-- Legacy `executeSFDXCommand` body: on shell error reject (cleanup
callback not reached); on parse failure the exception escapes (cleanup not
reached); otherwise invoke the cleanup callback and resolve the payload. -/
def executeSFDXCommandV1Trace {R : Type} : ShellExec R → ExecutorTrace R
  | .shellErr => ⟨.rejectedShellError, false⟩
  | .output none => ⟨.unsettled, false⟩
  | .output (some p) => ⟨.resolved p, true⟩

/-- Refined `executeSFDXCommand` body: on shell error reject; on parse
failure the exception escapes; otherwise reject the full payload when it
has a `status` key holding a positive number, else resolve it.  The `tmp`
cleanup callback is never invoked in this revision. -/
def executeSFDXCommandV2Trace {R : Type} : ShellExec R → ExecutorTrace R
  | .shellErr => ⟨.rejectedShellError, false⟩
  | .output none => ⟨.unsettled, false⟩
  | .output (some p) =>
    match p.status with
    | some s => if 0 < s then ⟨.rejectedPayload p, false⟩ else ⟨.resolved p, false⟩
    | none => ⟨.resolved p, false⟩

def executeSFDXCommandV1 {R : Type} (s : ShellExec R) : ExecutorOutcome R :=
  (executeSFDXCommandV1Trace s).outcome

def executeSFDXCommandV2 {R : Type} (s : ShellExec R) : ExecutorOutcome R :=
  (executeSFDXCommandV2Trace s).outcome

/-! ### Bulk request submission and polling (`bulkRequest`) -/

/-- One reported batch descriptor in the result body of a bulk submit. -/
structure BatchDescriptor where
  jobId : String
deriving DecidableEq

/-- The refined whole-job status summary body. -/
structure BulkStatusSummary where
  numberBatchesTotal : Nat
  numberBatchesCompleted : Nat
  numberBatchesFailed : Nat
  numberBatchesQueued : Nat
  numberBatchesInProgress : Nat
  totalProcessingTime : Nat
deriving DecidableEq

/-- The fixed delay (ms) passed to `setTimeout` by `doWait` before every
status check. -/
def pollDelayMs : Nat := 10000

/-- How one scheduled status check leaves the `bulkRequest` promise.
`pending`: the promise is settled by neither `resolve` nor `reject`
(the executor rejected and the polling chain has no rejection handler). -/
inductive PollOutcome where
  | resolved
  | rejectedStatusCheck (message : Option String)
  | scheduleNext (delayMs : Nat)
  | pending
deriving DecidableEq

def PollOutcome.isStatusCheckRejection : PollOutcome → Bool
  | .rejectedStatusCheck _ => true
  | _ => false

/-- The `then` handler of the status command inside `doWait`: reject when
`data.status !== 0`; re-poll via `doWait()` when
`numberBatchesCompleted + numberBatchesFailed !== numberBatchesTotal`;
otherwise resolve. -/
def interpretPollPayload (d : Payload BulkStatusSummary) : PollOutcome :=
  if d.status ≠ some 0 then .rejectedStatusCheck d.message
  else if d.result.numberBatchesCompleted + d.result.numberBatchesFailed
      ≠ d.result.numberBatchesTotal then .scheduleNext pollDelayMs
  else .resolved

/-- One status poll of `bulkRequest`: the handler above runs only when the
executor resolves; any executor rejection (or escaped exception) has no
handler in the polling chain. -/
def pollStep (e : ExecutorOutcome BulkStatusSummary) : PollOutcome :=
  match e with
  | .resolved d => interpretPollPayload d
  | _ => .pending

/-- A whole status poll in the refined revision: refined executor followed
by the polling handler. -/
def pollCheckV2 (s : ShellExec BulkStatusSummary) : PollOutcome :=
  pollStep (executeSFDXCommandV2 s)

/-- How the submission part of `bulkRequest` leaves its promise. -/
inductive SubmitOutcome where
  | rejectedSubmission (message : Option String)
  | started (jobId : String) (batchCount : Nat) (firstPollDelayMs : Nat)
  | pending
deriving DecidableEq

def SubmitOutcome.isSubmissionRejection : SubmitOutcome → Bool
  | .rejectedSubmission _ => true
  | _ => false

/-- The `then` handler of the submit command in `bulkRequest`: reject when
`data.status !== 0`; otherwise read `data.result[0].jobId` (an empty
result array makes this throw, so the promise is never settled) and start
the polling loop, whose first check `doWait` schedules after the fixed
delay.  An executor rejection has no handler. -/
def submitStep (e : ExecutorOutcome (List BatchDescriptor)) : SubmitOutcome :=
  match e with
  | .resolved d =>
    if d.status ≠ some 0 then .rejectedSubmission d.message
    else
      match d.result with
      | [] => .pending
      | b :: _ => .started b.jobId d.result.length pollDelayMs
  | _ => .pending

/-- A whole bulk submission in the refined revision. -/
def submitCheckV2 (s : ShellExec (List BatchDescriptor)) : SubmitOutcome :=
  submitStep (executeSFDXCommandV2 s)

/-! ### Query-and-delete orchestration (`bulkQueryAndDelete`) -/

/-- One record returned by the `SELECT Id FROM ...` query. -/
structure QueryRecord where
  Id : List Char
deriving DecidableEq

/-- The CSV artifact written to the temp file: the chunk `"Id"\n` followed
by one chunk `<id>\n` per record, exactly as the stream writes issue them. -/
def csvChars (records : List QueryRecord) : List Char :=
  ("\"Id\"\n").toList ++ (records.map (fun r => r.Id ++ ['\n'])).flatten

/-- The textual lines of a character buffer: pieces separated by newline
characters, a trailing newline ending the last line. -/
def fileLines : List Char → List (List Char)
  | [] => []
  | c :: s =>
    if c = '\n' then [] :: fileLines s
    else
      match fileLines s with
      | [] => [[c]]
      | l :: ls => (c :: l) :: ls

/-- Outcome of the inner `bulkDelete` promise as observed by
`bulkQueryAndDelete` (`pending` when that promise never settles). -/
inductive DeleteOutcome where
  | resolved
  | rejected
  | pending
deriving DecidableEq

inductive QDOutcome where
  | resolvedQ
  | rejectedEmpty
  | rejectedDeleteFailed
  | pendingQ
deriving DecidableEq

/-- Trace of one `bulkQueryAndDelete` run after the query has returned
`records`: its outcome, whether `bulkDelete` was invoked, the CSV artifact
content if one was materialized, and whether the artifact's cleanup
callback ran. -/
structure QDTrace where
  outcome : QDOutcome
  deleteInvoked : Bool
  csvFile : Option (List Char)
  csvRemoved : Bool
deriving DecidableEq

/-- `bulkQueryAndDelete` after the query resolves: with zero records it
rejects before any file is created; otherwise it writes the CSV artifact,
runs `bulkDelete`, settles accordingly, and the final `then` of the
`then/catch/then` chain removes the artifact once the delete settles. -/
def bulkQueryAndDelete (records : List QueryRecord) (del : DeleteOutcome) : QDTrace :=
  if records.length = 0 then
    { outcome := .rejectedEmpty, deleteInvoked := false
      csvFile := none, csvRemoved := false }
  else
    match del with
    | .resolved =>
      { outcome := .resolvedQ, deleteInvoked := true
        csvFile := some (csvChars records), csvRemoved := true }
    | .rejected =>
      { outcome := .rejectedDeleteFailed, deleteInvoked := true
        csvFile := some (csvChars records), csvRemoved := true }
    | .pending =>
      { outcome := .pendingQ, deleteInvoked := true
        csvFile := some (csvChars records), csvRemoved := false }

/-! ### General lemmas about the substring predicates -/

theorem leads_self_append (p t : List Char) : leads p (p ++ t) := by
  induction p with
  | nil => trivial
  | cons a p ih => exact ⟨rfl, ih⟩

theorem leads_length_le : ∀ (p s : List Char), leads p s → p.length ≤ s.length
  | [], _, _ => Nat.zero_le _
  | _ :: _, [], h => h.elim
  | a :: p, b :: s, h => by
    simp only [leads] at h
    simpa [List.length_cons] using Nat.succ_le_succ (leads_length_le p s h.2)

theorem leads_append_iff_le : ∀ (p s t : List Char), p.length ≤ s.length →
    (leads p (s ++ t) ↔ leads p s)
  | [], _, _, _ => by simp [leads]
  | a :: p, [], t, h => by
    rw [List.length_nil] at h
    exact absurd h (by simp)
  | a :: p, b :: s, t, h => by
    simp only [List.cons_append, leads, List.append_eq]
    rw [leads_append_iff_le p s t (by simp only [List.length_cons] at h; omega)]

theorem leads_append_iff_lt : ∀ (s p t : List Char), s.length < p.length →
    (leads p (s ++ t) ↔ leads s p ∧ leads (p.drop s.length) t)
  | [], p, t, _ => by simp [leads]
  | b :: s, [], t, h => by
    rw [List.length_nil] at h
    exact absurd h (Nat.not_lt_zero _)
  | b :: s, a :: p, t, h => by
    have h' : s.length < p.length := by simp only [List.length_cons] at h; omega
    simp only [List.cons_append, leads, List.length_cons, List.drop_succ_cons,
      List.append_eq]
    rw [leads_append_iff_lt s p t h']
    constructor
    · rintro ⟨hab, h1, h2⟩
      exact ⟨⟨hab.symm, h1⟩, h2⟩
    · rintro ⟨⟨hba, h1⟩, h2⟩
      exact ⟨hba.symm, h1, h2⟩

theorem leads_eq_take : ∀ (s p : List Char), leads s p → s = p.take s.length
  | [], _, _ => rfl
  | _ :: _, [], h => h.elim
  | a :: s, b :: p, h => by
    simp only [leads] at h
    simp only [List.length_cons, List.take_succ_cons]
    rw [h.1]
    exact congrArg (List.cons b) (leads_eq_take s p h.2)

theorem leads_head_mem : ∀ (c : Char) (p s : List Char), leads (c :: p) s → c ∈ s
  | _, _, [], h => h.elim
  | c, p, b :: s, h => by
    simp only [leads] at h
    rw [h.1]
    exact List.mem_cons_self b s

theorem leads_iff_exists : ∀ (p s : List Char), leads p s ↔ ∃ r, s = p ++ r
  | [], s => by simp [leads]
  | a :: p, [] => by
    constructor
    · intro h
      exact h.elim
    · rintro ⟨r, hr⟩
      simp at hr
  | a :: p, b :: s => by
    simp only [leads, List.cons_append]
    rw [leads_iff_exists p s]
    constructor
    · rintro ⟨hab, r, hr⟩
      exact ⟨r, by rw [hr, hab]⟩
    · rintro ⟨r, hr⟩
      injection hr with h1 h2
      exact ⟨h1.symm, r, h2⟩

theorem leads_app_left {p s : List Char} (h : leads p s) (t : List Char) :
    leads p (s ++ t) := by
  obtain ⟨r, hr⟩ := (leads_iff_exists p s).mp h
  exact (leads_iff_exists p (s ++ t)).mpr ⟨r ++ t, by rw [hr, List.append_assoc]⟩

theorem inside_iff_exists : ∀ (p s : List Char), inside p s ↔ ∃ x y, s = x ++ p ++ y
  | p, [] => by
    simp only [inside]
    rw [leads_iff_exists]
    constructor
    · rintro ⟨r, hr⟩
      exact ⟨[], r, by simpa using hr⟩
    · rintro ⟨x, y, hxy⟩
      rcases List.append_eq_nil.mp hxy.symm with ⟨hxp, hy⟩
      rcases List.append_eq_nil.mp hxp with ⟨hx, hp⟩
      subst hp
      exact ⟨[], rfl⟩
  | p, b :: s => by
    simp only [inside]
    rw [leads_iff_exists, inside_iff_exists p s]
    constructor
    · rintro (⟨r, hr⟩ | ⟨x, y, hxy⟩)
      · exact ⟨[], r, by simpa using hr⟩
      · exact ⟨b :: x, y, by rw [hxy]; simp⟩
    · rintro ⟨x, y, hxy⟩
      cases x with
      | nil => exact Or.inl ⟨y, by simpa using hxy⟩
      | cons c x =>
        simp only [List.cons_append] at hxy
        injection hxy with h1 h2
        exact Or.inr ⟨x, y, h2⟩

theorem inside_app_left {p s : List Char} (t : List Char) (h : inside p s) :
    inside p (s ++ t) := by
  obtain ⟨x, y, hxy⟩ := (inside_iff_exists p s).mp h
  exact (inside_iff_exists p (s ++ t)).mpr ⟨x, y ++ t, by rw [hxy]; simp⟩

theorem inside_app_right {p t : List Char} (s : List Char) (h : inside p t) :
    inside p (s ++ t) := by
  obtain ⟨x, y, hxy⟩ := (inside_iff_exists p t).mp h
  exact (inside_iff_exists p (s ++ t)).mpr ⟨s ++ x, y, by rw [hxy]; simp⟩

theorem inside_app_end (a p : List Char) : inside p (a ++ p) :=
  (inside_iff_exists p (a ++ p)).mpr ⟨a, [], by simp⟩

theorem inside_iff_drop : ∀ (p s : List Char), inside p s ↔ ∃ q, leads p (s.drop q)
  | p, [] => by
    simp only [inside]
    constructor
    · intro h
      exact ⟨0, h⟩
    · rintro ⟨q, hq⟩
      rw [List.drop_nil] at hq
      exact hq
  | p, b :: s => by
    simp only [inside]
    rw [inside_iff_drop p s]
    constructor
    · rintro (h | ⟨q, hq⟩)
      · exact ⟨0, by simpa using h⟩
      · exact ⟨q + 1, by simpa [List.drop_succ_cons] using hq⟩
    · rintro ⟨q, hq⟩
      cases q with
      | zero => exact Or.inl (by simpa using hq)
      | succ q => exact Or.inr ⟨q, by simpa [List.drop_succ_cons] using hq⟩

theorem ends_iff (p s : List Char) : ends p s ↔ ∃ a, s = a ++ p := by
  unfold ends
  rw [leads_iff_exists]
  constructor
  · rintro ⟨r, hr⟩
    refine ⟨r.reverse, ?_⟩
    have h2 := congrArg List.reverse hr
    simpa [List.reverse_append] using h2
  · rintro ⟨a, ha⟩
    exact ⟨a.reverse, by rw [ha]; simp [List.reverse_append]⟩

theorem countOcc_cons (p : List Char) (b : Char) (s : List Char) :
    countOcc p (b :: s) = (if leads p (b :: s) then 1 else 0) + countOcc p s := rfl

theorem countOcc_append_zero : ∀ (s p t : List Char),
    (∀ q, q < s.length → ¬ leads p (s.drop q ++ t)) →
    countOcc p (s ++ t) = countOcc p t
  | [], _, _, _ => rfl
  | b :: s, p, t, h => by
    have h0 : ¬ leads p ((b :: s) ++ t) := by simpa using h 0 (by simp)
    have hrec := countOcc_append_zero s p t (fun q hq => by
      have h2 := h (q + 1) (by simp only [List.length_cons]; omega)
      simpa [List.drop_succ_cons] using h2)
    calc countOcc p ((b :: s) ++ t)
        = (if leads p (b :: (s ++ t)) then 1 else 0) + countOcc p (s ++ t) := rfl
    _ = countOcc p t := by
        rw [if_neg (by simpa using h0), hrec]
        omega

theorem countOcc_self_append (p t : List Char) (hne : p ≠ [])
    (hb : ∀ j, j < p.length → 0 < j → ¬ leads p (p.drop j ++ t)) :
    countOcc p (p ++ t) = 1 + countOcc p t := by
  cases p with
  | nil => exact absurd rfl hne
  | cons a p =>
    have h1 : leads (a :: p) ((a :: p) ++ t) := leads_self_append _ _
    have hz : countOcc (a :: p) (p ++ t) = countOcc (a :: p) t :=
      countOcc_append_zero p (a :: p) t (fun q hq => by
        have h2 := hb (q + 1) (by simp only [List.length_cons]; omega) (Nat.succ_pos q)
        simpa [List.drop_succ_cons] using h2)
    calc countOcc (a :: p) ((a :: p) ++ t)
        = (if leads (a :: p) (a :: (p ++ t)) then 1 else 0)
            + countOcc (a :: p) (p ++ t) := rfl
    _ = 1 + countOcc (a :: p) t := by
        rw [if_pos (by simpa using h1), hz]

theorem countOcc_zero_iff (p : List Char) (hne : p ≠ []) : ∀ (s : List Char),
    countOcc p s = 0 ↔ ∀ q, ¬ leads p (s.drop q)
  | [] => by
    constructor
    · intro _ q hq
      rw [List.drop_nil] at hq
      cases p with
      | nil => exact hne rfl
      | cons a p => exact hq
    · intro _
      rfl
  | b :: s => by
    rw [countOcc_cons]
    constructor
    · intro h q
      have hif : ¬ leads p (b :: s) ∧ countOcc p s = 0 := by
        by_cases hl : leads p (b :: s)
        · rw [if_pos hl] at h
          omega
        · rw [if_neg hl] at h
          exact ⟨hl, by omega⟩
      cases q with
      | zero => simpa using hif.1
      | succ q =>
        have h2 := ((countOcc_zero_iff p hne s).mp hif.2) q
        simpa [List.drop_succ_cons] using h2
    · intro h
      rw [if_neg (by simpa using h 0),
        (countOcc_zero_iff p hne s).mpr (fun q => by
          have h2 := h (q + 1)
          simpa [List.drop_succ_cons] using h2)]

theorem countOcc_zero_iff_not_inside (p s : List Char) (hne : p ≠ []) :
    countOcc p s = 0 ↔ ¬ inside p s := by
  rw [countOcc_zero_iff p hne s, inside_iff_drop p s]
  exact not_exists.symm

theorem countOcc_zero_of_head_not_mem (c : Char) (p s : List Char) (h : c ∉ s) :
    countOcc (c :: p) s = 0 := by
  rw [countOcc_zero_iff (c :: p) (by simp) s]
  intro q hq
  exact h (List.drop_subset q s (leads_head_mem c p (s.drop q) hq))

/-! ### Facts about the concrete flag patterns -/

theorem jsonFlag_no_border : ∀ m, m < 7 → 0 < m →
    ¬ leads (jsonFlag.drop m) jsonFlag := by decide

theorem targetFlag_drop_not_leads_json : ∀ m, m < 17 → 11 ≤ m →
    ¬ leads (targetFlagHead.drop m) jsonFlag := by decide

theorem targetFlag_no_border : ∀ m, m < 17 → 0 < m →
    ¬ leads (targetFlagHead.drop m) targetFlagHead := by decide

theorem json_not_in_targetFlag : ∀ q, q < 12 →
    ¬ leads jsonFlag (targetFlagHead.drop q) := by decide

/-! ### Structure of the refined command normalization -/

theorem leads_sfdx_withSfdx (cmd : List Char) : leads sfdxHead (withSfdx cmd) := by
  unfold withSfdx
  by_cases h : leads sfdxHead cmd
  · rw [if_pos h]
    exact h
  · rw [if_neg h]
    exact leads_self_append sfdxHead cmd

theorem inside_withSfdx (cmd : List Char) (p : List Char) (hp : inside p cmd) :
    inside p (withSfdx cmd) := by
  unfold withSfdx
  by_cases h : leads sfdxHead cmd
  · rw [if_pos h]
    exact hp
  · rw [if_neg h]
    exact inside_app_right sfdxHead hp

theorem normalizeCommandV2_eq_append (u cmd : List Char)
    (hj : ¬ inside jsonFlag cmd) (hu : ¬ inside shortUserPat cmd)
    (ht : ¬ inside longUserPat cmd) :
    normalizeCommandV2 u cmd
      = withSfdx cmd ++ (jsonFlag ++ (targetFlagHead ++ u)) := by
  unfold normalizeCommandV2 addTargetUser addJson
  rw [if_neg (by rintro (h | h); exacts [hu h, ht h]), if_neg hj]
  simp [List.append_assoc]

theorem normalizeCommandV2_fixed (u r : List Char) (ha : leads sfdxHead r)
    (hb : inside jsonFlag r)
    (hc : inside shortUserPat r ∨ inside longUserPat r) :
    normalizeCommandV2 u r = r := by
  unfold normalizeCommandV2 addTargetUser addJson withSfdx
  rw [if_pos hc, if_pos hb, if_pos ha]

theorem normalizeCommandV2_idem (u cmd : List Char) :
    normalizeCommandV2 u (normalizeCommandV2 u cmd) = normalizeCommandV2 u cmd := by
  have hT : targetFlagHead = ' ' :: longUserPat := by decide
  rcases Classical.em (inside jsonFlag cmd) with hj | hj <;>
    rcases Classical.em (inside shortUserPat cmd ∨ inside longUserPat cmd)
      with hut | hut
  · have hr : normalizeCommandV2 u cmd = withSfdx cmd := by
      unfold normalizeCommandV2 addTargetUser addJson
      rw [if_pos hut, if_pos hj]
    rw [hr]
    apply normalizeCommandV2_fixed
    · exact leads_sfdx_withSfdx cmd
    · exact inside_withSfdx cmd _ hj
    · rcases hut with h | h
      exacts [Or.inl (inside_withSfdx cmd _ h), Or.inr (inside_withSfdx cmd _ h)]
  · have hr : normalizeCommandV2 u cmd
        = withSfdx cmd ++ targetFlagHead ++ u := by
      unfold normalizeCommandV2 addTargetUser addJson
      rw [if_neg hut, if_pos hj]
    rw [hr]
    apply normalizeCommandV2_fixed
    · exact leads_app_left (leads_app_left (leads_sfdx_withSfdx cmd) _) _
    · exact inside_app_left u (inside_app_left targetFlagHead (inside_withSfdx cmd _ hj))
    · exact Or.inr ((inside_iff_exists _ _).mpr
        ⟨withSfdx cmd ++ [' '], u, by rw [hT]; simp⟩)
  · have hr : normalizeCommandV2 u cmd = withSfdx cmd ++ jsonFlag := by
      unfold normalizeCommandV2 addTargetUser addJson
      rw [if_pos hut, if_neg hj]
    rw [hr]
    apply normalizeCommandV2_fixed
    · exact leads_app_left (leads_sfdx_withSfdx cmd) _
    · exact inside_app_end _ _
    · rcases hut with h | h
      exacts [Or.inl (inside_app_left _ (inside_withSfdx cmd _ h)),
        Or.inr (inside_app_left _ (inside_withSfdx cmd _ h))]
  · have hr : normalizeCommandV2 u cmd
        = withSfdx cmd ++ jsonFlag ++ targetFlagHead ++ u := by
      unfold normalizeCommandV2 addTargetUser addJson
      rw [if_neg hut, if_neg hj]
    rw [hr]
    apply normalizeCommandV2_fixed
    · exact leads_app_left
        (leads_app_left (leads_app_left (leads_sfdx_withSfdx cmd) _) _) _
    · exact inside_app_left _ (inside_app_left _ (inside_app_end _ _))
    · exact Or.inr ((inside_iff_exists _ _).mpr
        ⟨withSfdx cmd ++ jsonFlag ++ [' '], u, by rw [hT]; simp⟩)

theorem interpretPollPayload_scheduleNext_delay (d : Payload BulkStatusSummary)
    (delay : Nat) (h : interpretPollPayload d = .scheduleNext delay) :
    delay = pollDelayMs := by
  unfold interpretPollPayload at h
  split at h
  · cases h
  · split at h
    · cases h
      rfl
    · cases h

theorem fileLines_append_line (l rest : List Char) (hl : ('\n') ∉ l) :
    fileLines (l ++ '\n' :: rest) = l :: fileLines rest := by
  induction l with
  | nil => simp [fileLines]
  | cons c l ih =>
    have hc : ¬ c = '\n' := fun h => hl (h ▸ List.mem_cons_self c l)
    have hl' : ('\n') ∉ l := fun h => hl (List.mem_cons_of_mem _ h)
    simp only [List.cons_append, fileLines, if_neg hc, List.append_eq, ih hl']

theorem fileLines_flattened_lines (rs : List QueryRecord)
    (hrs : ∀ r ∈ rs, ('\n') ∉ r.Id) :
    fileLines ((rs.map (fun r => r.Id ++ ['\n'])).flatten) = rs.map (fun r => r.Id) := by
  induction rs with
  | nil => rfl
  | cons a rs ih =>
    simp only [List.map_cons, List.flatten_cons, List.append_assoc,
      List.singleton_append]
    rw [fileLines_append_line _ _ (hrs a (List.mem_cons_self a rs))]
    rw [ih (fun r hr => hrs r (List.mem_cons_of_mem _ hr))]

theorem fileLines_csvChars (records : List QueryRecord)
    (h : ∀ r ∈ records, ('\n') ∉ r.Id) :
    fileLines (csvChars records)
      = ("\"Id\"").toList :: records.map (fun r => r.Id) := by
  show fileLines (("\"Id\"").toList ++ '\n'
      :: (records.map (fun r => r.Id ++ ['\n'])).flatten) = _
  rw [fileLines_append_line _ _ (by decide)]
  rw [fileLines_flattened_lines records h]

/-! ### Claim theorems -/

/-- C1: in the refined whole-job protocol, a status poll whose summary
payload is delivered with application status 0 resolves the job as
terminal (Completed) if and only if
`numberBatchesCompleted + numberBatchesFailed = numberBatchesTotal`, and
it resolves even when some batches failed, e.g. total 3, completed 2,
failed 1. -/
theorem bulkRequest_poll_terminal_iff (d : Payload BulkStatusSummary)
    (h : d.status = some 0) :
    (pollCheckV2 (.output (some d)) = .resolved ↔
      d.result.numberBatchesCompleted + d.result.numberBatchesFailed
        = d.result.numberBatchesTotal) ∧
    pollCheckV2 (.output (some (⟨some 0, none,
      ⟨3, 2, 1, 0, 0, 0⟩⟩ : Payload BulkStatusSummary))) = .resolved := by
  obtain ⟨st, msg, res⟩ := d
  cases h
  refine ⟨?_, by decide⟩
  show interpretPollPayload ⟨some 0, msg, res⟩ = .resolved ↔ _
  unfold interpretPollPayload
  by_cases hc : res.numberBatchesCompleted + res.numberBatchesFailed
      = res.numberBatchesTotal
  · simp [hc]
  · simp [hc]

theorem bulkRequest_poll_terminal_iff_witness :
    (⟨some 0, none, ⟨3, 2, 1, 0, 0, 0⟩⟩ : Payload BulkStatusSummary).status
      = some 0 ∧
    (pollCheckV2 (.output (some (⟨some 0, none,
        ⟨3, 2, 1, 0, 0, 0⟩⟩ : Payload BulkStatusSummary))) = .resolved
      ↔ 2 + 1 = 3) :=
  ⟨rfl, (bulkRequest_poll_terminal_iff ⟨some 0, none, ⟨3, 2, 1, 0, 0, 0⟩⟩ rfl).1⟩

/-- C2: a delivered status payload (application status 0) in which
completed + failed is strictly below the total neither resolves nor
rejects the job promise but schedules exactly one further check with the
fixed 10000 ms delay; moreover every scheduled poll, including the first
one after submission, uses that same delay. -/
theorem bulkRequest_poll_inProgress_reschedules :
    (∀ d : Payload BulkStatusSummary, d.status = some 0 →
      d.result.numberBatchesCompleted + d.result.numberBatchesFailed
        < d.result.numberBatchesTotal →
      pollCheckV2 (.output (some d)) = .scheduleNext 10000) ∧
    (∀ (s : ShellExec BulkStatusSummary) (delay : Nat),
      pollCheckV2 s = .scheduleNext delay → delay = 10000) ∧
    (∀ (e : ExecutorOutcome (List BatchDescriptor)) (j : String)
      (n delay : Nat), submitStep e = .started j n delay → delay = 10000) := by
  refine ⟨?_, ?_, ?_⟩
  · intro d h hlt
    obtain ⟨st, msg, res⟩ := d
    cases h
    show interpretPollPayload ⟨some 0, msg, res⟩ = _
    unfold interpretPollPayload
    simp only [reduceCtorEq]
    rw [if_neg (by simp), if_pos (Nat.ne_of_lt hlt)]
    rfl
  · intro s delay h
    cases s with
    | shellErr => cases h
    | output o =>
      cases o with
      | none => cases h
      | some d =>
        obtain ⟨st, msg, res⟩ := d
        cases st with
        | none =>
          have step : pollCheckV2 (.output (some ⟨none, msg, res⟩))
              = interpretPollPayload ⟨none, msg, res⟩ := rfl
          rw [step] at h
          exact interpretPollPayload_scheduleNext_delay _ _ h
        | some v =>
          by_cases hv : 0 < v
          · have : pollCheckV2 (.output (some ⟨some v, msg, res⟩)) = .pending := by
              show pollStep ((executeSFDXCommandV2Trace _).outcome) = _
              simp [executeSFDXCommandV2Trace, hv, pollStep]
            rw [this] at h
            cases h
          · have : pollCheckV2 (.output (some ⟨some v, msg, res⟩))
                = interpretPollPayload ⟨some v, msg, res⟩ := by
              show pollStep ((executeSFDXCommandV2Trace _).outcome) = _
              simp [executeSFDXCommandV2Trace, hv, pollStep]
            rw [this] at h
            exact interpretPollPayload_scheduleNext_delay _ _ h
  · intro e j n delay h
    cases e with
    | resolved d =>
      obtain ⟨st, msg, res⟩ := d
      by_cases h0 : st = some 0
      · subst h0
        cases res with
        | nil =>
          have : submitStep (.resolved ⟨some 0, msg, []⟩) = .pending := by
            simp [submitStep]
          rw [this] at h
          cases h
        | cons b bs =>
          have : submitStep (.resolved ⟨some 0, msg, b :: bs⟩)
              = .started b.jobId (b :: bs).length pollDelayMs := by
            simp [submitStep]
          rw [this] at h
          cases h
          rfl
      · have : submitStep (.resolved ⟨st, msg, res⟩)
            = .rejectedSubmission msg := by
          simp only [submitStep]
          rw [if_pos h0]
        rw [this] at h
        cases h
    | rejectedShellError => cases h
    | rejectedPayload p => cases h
    | unsettled => cases h

theorem bulkRequest_poll_inProgress_reschedules_witness :
    (⟨some 0, none, ⟨3, 1, 0, 2, 0, 0⟩⟩ : Payload BulkStatusSummary).status
      = some 0 ∧ 1 + 0 < 3 ∧
    pollCheckV2 (.output (some (⟨some 0, none,
      ⟨3, 1, 0, 2, 0, 0⟩⟩ : Payload BulkStatusSummary))) = .scheduleNext 10000 :=
  ⟨rfl, by decide,
    bulkRequest_poll_inProgress_reschedules.1 ⟨some 0, none, ⟨3, 1, 0, 2, 0, 0⟩⟩
      rfl (by decide)⟩

/-- C3 counterexample: when the status-check command fails with an
execution error, the refined polling chain has no rejection handler, so
the bulk-job promise is left pending and in particular is not rejected
with a StatusCheckError, contradicting the claim. -/
theorem bulkRequest_statusCheck_execError_not_rejected :
    pollCheckV2 ShellExec.shellErr = .pending ∧
    (pollCheckV2 ShellExec.shellErr).isStatusCheckRejection = false :=
  ⟨rfl, rfl⟩

/-- C3 (amended): the bulk-job promise rejects with the StatusCheckError
message exactly when the status command resolves from the executor (in
the refined protocol: its payload has no positive status) with a status
different from 0; an execution error, a parse failure, or a payload with
positive status (which the refined executor itself rejects) is unhandled
by the polling chain and leaves the promise pending. -/
theorem bulkRequest_statusCheck_failure_handling :
    (∀ d : Payload BulkStatusSummary,
      (∀ v : Int, d.status = some v → v ≤ 0) → d.status ≠ some 0 →
      pollCheckV2 (.output (some d)) = .rejectedStatusCheck d.message) ∧
    (∀ (d : Payload BulkStatusSummary) (v : Int), d.status = some v →
      0 < v → pollCheckV2 (.output (some d)) = .pending) ∧
    pollCheckV2 ShellExec.shellErr = .pending ∧
    pollCheckV2 (.output none) = .pending := by
  refine ⟨?_, ?_, rfl, rfl⟩
  · intro d hle hne
    obtain ⟨st, msg, res⟩ := d
    cases st with
    | none =>
      show interpretPollPayload ⟨none, msg, res⟩ = _
      unfold interpretPollPayload
      rw [if_pos (by simp)]
    | some v =>
      have hv : ¬ 0 < v := by
        have := hle v rfl
        omega
      have hv0 : v ≠ 0 := fun h => hne (by simp [h])
      have step : pollCheckV2 (.output (some ⟨some v, msg, res⟩))
          = interpretPollPayload ⟨some v, msg, res⟩ := by
        show pollStep ((executeSFDXCommandV2Trace _).outcome) = _
        simp [executeSFDXCommandV2Trace, hv, pollStep]
      rw [step]
      unfold interpretPollPayload
      rw [if_pos (by simp [hv0])]
  · intro d v hs hv
    obtain ⟨st, msg, res⟩ := d
    cases hs
    show pollStep ((executeSFDXCommandV2Trace _).outcome) = _
    simp [executeSFDXCommandV2Trace, hv, pollStep]

theorem bulkRequest_statusCheck_failure_handling_witness :
    pollCheckV2 (.output (some (⟨none, some "boom",
      ⟨0, 0, 0, 0, 0, 0⟩⟩ : Payload BulkStatusSummary)))
      = .rejectedStatusCheck (some "boom") :=
  bulkRequest_statusCheck_failure_handling.1 _
    (fun v hv => Option.noConfusion hv) (by simp)

/-- C4: in the refined revision, a subprocess that exits 0 with parseable
output carrying a positive status field makes the executor reject with
the full payload, while the legacy revision resolves any such payload and
leaves status-checking to the caller. -/
theorem executor_appStatus_reject_refined_resolve_legacy {R : Type}
    (p : Payload R) (v : Int) (hs : p.status = some v) (hv : 0 < v) :
    executeSFDXCommandV2 (.output (some p)) = .rejectedPayload p ∧
    executeSFDXCommandV1 (.output (some p)) = .resolved p := by
  obtain ⟨st, msg, res⟩ := p
  cases hs
  refine ⟨?_, rfl⟩
  show (executeSFDXCommandV2Trace _).outcome = _
  simp [executeSFDXCommandV2Trace, hv]

theorem executor_appStatus_reject_refined_resolve_legacy_witness :
    (⟨some 1, none, ()⟩ : Payload Unit).status = some 1 ∧ (0 : Int) < 1 ∧
    executeSFDXCommandV2 (.output (some (⟨some 1, none, ()⟩ : Payload Unit)))
      = .rejectedPayload ⟨some 1, none, ()⟩ ∧
    executeSFDXCommandV1 (.output (some (⟨some 1, none, ()⟩ : Payload Unit)))
      = .resolved ⟨some 1, none, ()⟩ :=
  ⟨rfl, by decide,
    executor_appStatus_reject_refined_resolve_legacy ⟨some 1, none, ()⟩ 1 rfl
      (by decide)⟩

/-- C5 counterexample: a refined-revision invocation that resolves
successfully still leaves the temporary output file undeleted (the `tmp`
cleanup callback is never invoked in that revision), contradicting the
claim that the temp file is deleted after read regardless of outcome. -/
theorem executor_tmpFile_not_deleted_on_success :
    (executeSFDXCommandV2Trace (ShellExec.output (some
      (⟨some 0, none, ()⟩ : Payload Unit)))).outcome
        = .resolved ⟨some 0, none, ()⟩ ∧
    (executeSFDXCommandV2Trace (ShellExec.output (some
      (⟨some 0, none, ()⟩ : Payload Unit)))).tmpFileDeleted = false :=
  ⟨by decide, by decide⟩

/-- C5 (amended): the legacy executor deletes the temp file exactly on
the resolve path (read and parse succeeded) and leaves it behind on a
shell error or parse failure, while the refined executor never invokes
the cleanup callback at all, so the file is never deleted during the
invocation in that revision. -/
theorem executor_tmpFile_cleanup {R : Type} (s : ShellExec R) :
    (executeSFDXCommandV2Trace s).tmpFileDeleted = false ∧
    ((executeSFDXCommandV1Trace s).tmpFileDeleted = true ↔
      ∃ p, (executeSFDXCommandV1Trace s).outcome = .resolved p) := by
  cases s with
  | shellErr => exact ⟨rfl, by simp [executeSFDXCommandV1Trace]⟩
  | output o =>
    cases o with
    | none => exact ⟨rfl, by simp [executeSFDXCommandV1Trace]⟩
    | some p =>
      refine ⟨?_, by simp [executeSFDXCommandV1Trace]⟩
      obtain ⟨st, msg, res⟩ := p
      cases st with
      | none => rfl
      | some v =>
        show (executeSFDXCommandV2Trace _).tmpFileDeleted = _
        by_cases hv : 0 < v
        · simp [executeSFDXCommandV2Trace, hv]
        · simp [executeSFDXCommandV2Trace, hv]

/-- C7 counterexample: when the submit command fails with an execution
error, the refined submission chain has no rejection handler, so the
submission promise stays pending and is not rejected with a
SubmissionError, contradicting the claim. -/
theorem bulkRequest_submission_execError_not_rejected :
    submitCheckV2 ShellExec.shellErr = .pending ∧
    (submitCheckV2 ShellExec.shellErr).isSubmissionRejection = false :=
  ⟨rfl, rfl⟩

/-- C7 (amended): the submission promise rejects with a SubmissionError
exactly when the executor resolves a payload whose status differs from 0
(in the refined protocol: the status key is absent or non-positive); an
executor failure is unhandled, and a result body without a first batch
descriptor makes the handler throw, so in both cases the promise stays
pending instead of rejecting. -/
theorem bulkRequest_submission_failure_handling :
    (∀ d : Payload (List BatchDescriptor),
      (∀ v : Int, d.status = some v → v ≤ 0) → d.status ≠ some 0 →
      submitCheckV2 (.output (some d)) = .rejectedSubmission d.message) ∧
    submitCheckV2 ShellExec.shellErr = .pending ∧
    submitCheckV2 (.output none) = .pending ∧
    (∀ d : Payload (List BatchDescriptor), d.status = some 0 →
      d.result = [] → submitCheckV2 (.output (some d)) = .pending) ∧
    (∀ (d : Payload (List BatchDescriptor)) (v : Int), d.status = some v →
      0 < v → submitCheckV2 (.output (some d)) = .pending) := by
  refine ⟨?_, rfl, rfl, ?_, ?_⟩
  · intro d hle hne
    obtain ⟨st, msg, res⟩ := d
    cases st with
    | none => rfl
    | some v =>
      have hv : ¬ 0 < v := by
        have := hle v rfl
        omega
      have hv0 : v ≠ 0 := fun h => hne (by simp [h])
      have step : submitCheckV2 (.output (some ⟨some v, msg, res⟩))
          = submitStep (.resolved ⟨some v, msg, res⟩) := by
        show submitStep ((executeSFDXCommandV2Trace _).outcome) = _
        simp [executeSFDXCommandV2Trace, hv]
      rw [step]
      simp only [submitStep]
      rw [if_pos (by simp [hv0])]
  · intro d h hres
    obtain ⟨st, msg, res⟩ := d
    cases h
    cases hres
    rfl
  · intro d v hs hv
    obtain ⟨st, msg, res⟩ := d
    cases hs
    show submitStep ((executeSFDXCommandV2Trace _).outcome) = _
    simp [executeSFDXCommandV2Trace, hv, submitStep]

theorem bulkRequest_submission_failure_handling_witness :
    submitCheckV2 (.output (some (⟨none, some "bad",
      []⟩ : Payload (List BatchDescriptor))))
      = .rejectedSubmission (some "bad") :=
  bulkRequest_submission_failure_handling.1 _
    (fun v hv => Option.noConfusion hv) (by simp)

/-- C8: a query returning zero records makes `bulkQueryAndDelete` reject
without invoking the bulk delete and without creating any CSV artifact. -/
theorem bulkQueryAndDelete_empty_rejects (del : DeleteOutcome) :
    (bulkQueryAndDelete [] del).outcome = .rejectedEmpty ∧
    (bulkQueryAndDelete [] del).deleteInvoked = false ∧
    (bulkQueryAndDelete [] del).csvFile = none :=
  ⟨rfl, rfl, rfl⟩

/-- C9: a query returning N >= 1 records materializes a CSV artifact of
exactly N+1 lines, the quoted header line followed by one bare identifier
per line, and the artifact is removed once the subsequent bulk delete
settles, whether it resolves or rejects. -/
theorem bulkQueryAndDelete_csv_and_cleanup
    (records : List QueryRecord) (del : DeleteOutcome)
    (hne : records ≠ []) (hid : ∀ r ∈ records, ('\n') ∉ r.Id)
    (hdel : del ≠ .pending) :
    (bulkQueryAndDelete records del).csvFile = some (csvChars records) ∧
    fileLines (csvChars records)
      = ("\"Id\"").toList :: records.map (fun r => r.Id) ∧
    (fileLines (csvChars records)).length = records.length + 1 ∧
    (bulkQueryAndDelete records del).csvRemoved = true ∧
    (bulkQueryAndDelete records del).deleteInvoked = true := by
  have hlen : ¬ records.length = 0 := fun h => hne (List.length_eq_zero.mp h)
  have hfl := fileLines_csvChars records hid
  have hcount : (fileLines (csvChars records)).length = records.length + 1 := by
    rw [hfl]
    simp
  unfold bulkQueryAndDelete
  rw [if_neg hlen]
  cases del with
  | resolved => exact ⟨rfl, hfl, hcount, rfl, rfl⟩
  | rejected => exact ⟨rfl, hfl, hcount, rfl, rfl⟩
  | pending => exact absurd rfl hdel

theorem bulkQueryAndDelete_csv_and_cleanup_witness :
    (bulkQueryAndDelete [⟨("001").toList⟩, ⟨("002").toList⟩]
      DeleteOutcome.rejected).csvRemoved = true ∧
    fileLines (csvChars [⟨("001").toList⟩, ⟨("002").toList⟩])
      = [("\"Id\"").toList, ("001").toList, ("002").toList] ∧
    (fileLines (csvChars [⟨("001").toList⟩, ⟨("002").toList⟩])).length = 3 := by
  have h := bulkQueryAndDelete_csv_and_cleanup
    [⟨("001").toList⟩, ⟨("002").toList⟩] DeleteOutcome.rejected
    (by decide) (by decide) (by decide)
  exact ⟨h.2.2.2.1, by rw [h.2.1]; rfl, h.2.2.1⟩

/-- C10: a payload with no status key at all passes the refined executor
(its rejection test requires the key to be present with a positive value)
but is then rejected by the submission handler of `bulkRequest`, whose
acceptance test requires the status to equal 0 exactly. -/
theorem executor_passes_statusless_payload_submission_rejects
    (p : Payload (List BatchDescriptor)) (h : p.status = none) :
    executeSFDXCommandV2 (.output (some p)) = .resolved p ∧
    submitCheckV2 (.output (some p)) = .rejectedSubmission p.message := by
  obtain ⟨st, msg, res⟩ := p
  cases h
  exact ⟨rfl, rfl⟩

theorem executor_passes_statusless_payload_submission_rejects_witness :
    (⟨none, some "m", []⟩ : Payload (List BatchDescriptor)).status = none ∧
    (executeSFDXCommandV2 (.output (some (⟨none, some "m",
        []⟩ : Payload (List BatchDescriptor)))) = .resolved ⟨none, some "m", []⟩ ∧
      submitCheckV2 (.output (some (⟨none, some "m",
        []⟩ : Payload (List BatchDescriptor)))) = .rejectedSubmission (some "m")) :=
  ⟨rfl, executor_passes_statusless_payload_submission_rejects _ rfl⟩

/-- C6 counterexample: the executed command does not always contain
exactly one structured-output flag and exactly one identity flag: a
command already containing the structured-output flag twice keeps both
copies, and a command containing the raw substring sought by the identity
test inside another token (here `echo-u x`) receives no identity flag at
all. -/
theorem executor_normalization_not_exactly_one :
    countOcc jsonFlag
      (normalizeCommandV2 ("me").toList ("x --json --json").toList) = 2 ∧
    countOcc ((" -u ").toList)
        (normalizeCommandV2 ("me").toList ("echo-u x").toList)
      + countOcc targetFlagHead
        (normalizeCommandV2 ("me").toList ("echo-u x").toList) = 0 := by
  constructor
  · decide
  · decide

/-- C6 (amended): the refined Executor appends the structured-output flag
exactly when the raw substring test on the input fails to find it, and
appends the identity flag exactly when the input contains neither
identity substring; for an input command free of the flag substrings and
of raw-substring false positives at the prepend and append boundaries,
and an identity containing neither spaces nor hyphens, the executed
command contains exactly one occurrence of the structured-output flag and
exactly one occurrence of the appended identity flag; the normalization
is idempotent on every input. -/
theorem executor_normalization_flags (u cmd : List Char)
    (h1 : countOcc jsonFlag (withSfdx cmd) = 0)
    (h2 : ¬ inside shortUserPat cmd)
    (h3 : ¬ inside longUserPat cmd)
    (h4 : countOcc targetFlagHead (withSfdx cmd) = 0)
    (h5 : ¬ ends (targetFlagHead.take 17) (withSfdx cmd))
    (h6 : ∀ c ∈ u, c ≠ ' ' ∧ c ≠ '-') :
    countOcc jsonFlag (normalizeCommandV2 u cmd) = 1 ∧
    countOcc targetFlagHead (normalizeCommandV2 u cmd) = 1 ∧
    ∀ u' cmd' : List Char,
      normalizeCommandV2 u' (normalizeCommandV2 u' cmd')
        = normalizeCommandV2 u' cmd' := by
  have hUspace : (' ') ∉ u := fun hm => (h6 _ hm).1 rfl
  have hUdash : ('-') ∉ u := fun hm => (h6 _ hm).2 rfl
  have hJlen : jsonFlag.length = 7 := by decide
  have hTlen : targetFlagHead.length = 18 := by decide
  have hjcmd : ¬ inside jsonFlag cmd := fun hc =>
    ((countOcc_zero_iff_not_inside jsonFlag (withSfdx cmd) (by decide)).mp h1)
      (inside_withSfdx cmd _ hc)
  have hnorm := normalizeCommandV2_eq_append u cmd hjcmd h2 h3
  have hJu : countOcc jsonFlag u = 0 := by
    have hj : jsonFlag = ' ' :: ("--json").toList := by decide
    rw [hj]
    exact countOcc_zero_of_head_not_mem _ _ u hUspace
  have hTu : countOcc targetFlagHead u = 0 := by
    have ht : targetFlagHead = ' ' :: ("--targetusername ").toList := by decide
    rw [ht]
    exact countOcc_zero_of_head_not_mem _ _ u hUspace
  have hsideTu : ∀ q, q < targetFlagHead.length →
      ¬ leads jsonFlag (targetFlagHead.drop q ++ u) := by
    intro q hq hlead
    rw [hTlen] at hq
    rcases Nat.lt_or_ge q 12 with hq12 | hq12
    · have hlen : jsonFlag.length ≤ (targetFlagHead.drop q).length := by
        rw [hJlen, List.length_drop, hTlen]
        omega
      exact json_not_in_targetFlag q hq12
        ((leads_append_iff_le jsonFlag (targetFlagHead.drop q) u hlen).mp hlead)
    · have hlen : (targetFlagHead.drop q).length < jsonFlag.length := by
        rw [hJlen, List.length_drop, hTlen]
        omega
      obtain ⟨hw, hrest⟩ :=
        (leads_append_iff_lt (targetFlagHead.drop q) jsonFlag u hlen).mp hlead
      rcases Nat.lt_or_ge q 17 with hq17 | hq17
      · exact targetFlag_drop_not_leads_json q hq17 (by omega) hw
      · have hq' : q = 17 := by omega
        subst hq'
        have hd : (targetFlagHead.drop 17).length = 1 := by decide
        rw [hd] at hrest
        have hj1 : jsonFlag.drop 1 = '-' :: ("-json").toList := by decide
        rw [hj1] at hrest
        exact hUdash (leads_head_mem _ _ u hrest)
  have hJTu : countOcc jsonFlag (targetFlagHead ++ u) = 0 := by
    rw [countOcc_append_zero targetFlagHead jsonFlag u hsideTu, hJu]
  have hsideB : ∀ q, q < (withSfdx cmd).length →
      ¬ leads jsonFlag
        ((withSfdx cmd).drop q ++ (jsonFlag ++ (targetFlagHead ++ u))) := by
    intro q hq hlead
    rcases Nat.lt_or_ge ((withSfdx cmd).drop q).length jsonFlag.length
      with hlen | hlen
    · obtain ⟨-, hrest⟩ := (leads_append_iff_lt _ jsonFlag _ hlen).mp hlead
      have hm0 : 0 < ((withSfdx cmd).drop q).length := by
        rw [List.length_drop]
        omega
      have hmlt : ((withSfdx cmd).drop q).length < 7 := by
        rw [hJlen] at hlen
        exact hlen
      have hlen2 : (jsonFlag.drop ((withSfdx cmd).drop q).length).length
          ≤ jsonFlag.length := by
        rw [List.length_drop]
        omega
      exact jsonFlag_no_border _ hmlt hm0
        ((leads_append_iff_le _ jsonFlag (targetFlagHead ++ u) hlen2).mp hrest)
    · exact ((countOcc_zero_iff jsonFlag (by decide) (withSfdx cmd)).mp h1) q
        ((leads_append_iff_le jsonFlag _ _ hlen).mp hlead)
  have hsideJself : ∀ j, j < jsonFlag.length → 0 < j →
      ¬ leads jsonFlag (jsonFlag.drop j ++ (targetFlagHead ++ u)) := by
    intro j hj hj0 hlead
    have hlen : (jsonFlag.drop j).length < jsonFlag.length := by
      rw [List.length_drop, hJlen]
      rw [hJlen] at hj
      omega
    obtain ⟨hw, -⟩ := (leads_append_iff_lt _ jsonFlag _ hlen).mp hlead
    exact jsonFlag_no_border j (by rw [hJlen] at hj; exact hj) hj0 hw
  have hcJ : countOcc jsonFlag (normalizeCommandV2 u cmd) = 1 := by
    rw [hnorm, countOcc_append_zero (withSfdx cmd) jsonFlag _ hsideB,
      countOcc_self_append jsonFlag (targetFlagHead ++ u) (by decide) hsideJself,
      hJTu]
  have hBJ : countOcc targetFlagHead (withSfdx cmd ++ jsonFlag) = 0 := by
    have hside : ∀ q, q < (withSfdx cmd).length →
        ¬ leads targetFlagHead ((withSfdx cmd).drop q ++ jsonFlag) := by
      intro q hq hlead
      rcases Nat.lt_or_ge ((withSfdx cmd).drop q).length targetFlagHead.length
        with hlen | hlen
      · obtain ⟨hw, hrest⟩ := (leads_append_iff_lt _ targetFlagHead _ hlen).mp hlead
        rcases Nat.lt_or_ge ((withSfdx cmd).drop q).length 11 with hm11 | hm11
        · have hll := leads_length_le _ _ hrest
          rw [List.length_drop, hTlen, hJlen] at hll
          omega
        · rcases Nat.lt_or_ge ((withSfdx cmd).drop q).length 17 with hm17 | hm17
          · exact targetFlag_drop_not_leads_json _ hm17 hm11 hrest
          · have hm : ((withSfdx cmd).drop q).length = 17 := by
              rw [hTlen] at hlen
              omega
            have heq := leads_eq_take _ _ hw
            rw [hm] at heq
            exact h5 ((ends_iff _ _).mpr ⟨(withSfdx cmd).take q, by
              rw [← heq]
              exact (List.take_append_drop q (withSfdx cmd)).symm⟩)
      · exact ((countOcc_zero_iff targetFlagHead (by decide) (withSfdx cmd)).mp h4)
          q ((leads_append_iff_le targetFlagHead _ _ hlen).mp hlead)
    rw [countOcc_append_zero (withSfdx cmd) targetFlagHead jsonFlag hside]
    decide
  have hsideBJ : ∀ q, q < (withSfdx cmd ++ jsonFlag).length →
      ¬ leads targetFlagHead
        ((withSfdx cmd ++ jsonFlag).drop q ++ (targetFlagHead ++ u)) := by
    intro q hq hlead
    have hq' : q < (withSfdx cmd).length + 7 := by
      rw [List.length_append, hJlen] at hq
      exact hq
    rcases Nat.lt_or_ge ((withSfdx cmd ++ jsonFlag).drop q).length
      targetFlagHead.length with hlen | hlen
    · obtain ⟨hw, hrest⟩ := (leads_append_iff_lt _ targetFlagHead _ hlen).mp hlead
      have hm0 : 0 < ((withSfdx cmd ++ jsonFlag).drop q).length := by
        rw [List.length_drop, List.length_append, hJlen]
        omega
      have hrest2 : leads
          (targetFlagHead.drop ((withSfdx cmd ++ jsonFlag).drop q).length)
          targetFlagHead := by
        refine (leads_append_iff_le _ targetFlagHead u ?_).mp hrest
        rw [List.length_drop]
        omega
      rcases Nat.lt_or_ge ((withSfdx cmd ++ jsonFlag).drop q).length 17
        with hm17 | hm17
      · exact targetFlag_no_border _ hm17 hm0 hrest2
      · have hm : ((withSfdx cmd ++ jsonFlag).drop q).length = 17 := by
          rw [hTlen] at hlen
          omega
        have hlq : ((withSfdx cmd ++ jsonFlag).drop q).length
            = (withSfdx cmd).length + 7 - q := by
          rw [List.length_drop, List.length_append, hJlen]
        have hqB : q ≤ (withSfdx cmd).length := by omega
        have hsplit : (withSfdx cmd ++ jsonFlag).drop q
            = (withSfdx cmd).drop q ++ jsonFlag :=
          List.drop_append_of_le_length hqB
        have heq := leads_eq_take _ _ hw
        rw [hm, hsplit] at heq
        have h10 : ((withSfdx cmd).drop q).length = 10 := by
          have hlc := congrArg List.length heq
          rw [List.length_append, hJlen] at hlc
          have h17len : (targetFlagHead.take 17).length = 17 := by decide
          rw [h17len] at hlc
          omega
        have hdropped := congrArg (List.drop ((withSfdx cmd).drop q).length) heq
        rw [List.drop_left] at hdropped
        rw [h10] at hdropped
        exact absurd hdropped (by decide)
    · exact ((countOcc_zero_iff targetFlagHead (by decide) _).mp hBJ) q
        ((leads_append_iff_le targetFlagHead _ _ hlen).mp hlead)
  have hsideTself : ∀ j, j < targetFlagHead.length → 0 < j →
      ¬ leads targetFlagHead (targetFlagHead.drop j ++ u) := by
    intro j hj hj0 hlead
    have hlen : (targetFlagHead.drop j).length < targetFlagHead.length := by
      rw [List.length_drop, hTlen]
      rw [hTlen] at hj
      omega
    obtain ⟨hw, hrest⟩ := (leads_append_iff_lt _ targetFlagHead _ hlen).mp hlead
    rcases Nat.lt_or_ge j 17 with hj17 | hj17
    · exact targetFlag_no_border j hj17 hj0 hw
    · have hj' : j = 17 := by
        rw [hTlen] at hj
        omega
      subst hj'
      have hd : (targetFlagHead.drop 17).length = 1 := by decide
      rw [hd] at hrest
      have ht1 : targetFlagHead.drop 1 = '-' :: ("-targetusername ").toList := by
        decide
      rw [ht1] at hrest
      exact hUdash (leads_head_mem _ _ u hrest)
  have hcT : countOcc targetFlagHead (normalizeCommandV2 u cmd) = 1 := by
    have hassoc : normalizeCommandV2 u cmd
        = (withSfdx cmd ++ jsonFlag) ++ (targetFlagHead ++ u) := by
      rw [hnorm]
      simp [List.append_assoc]
    rw [hassoc, countOcc_append_zero _ targetFlagHead _ hsideBJ,
      countOcc_self_append targetFlagHead u (by decide) hsideTself, hTu]
  exact ⟨hcJ, hcT, fun u' cmd' => normalizeCommandV2_idem u' cmd'⟩

theorem executor_normalization_flags_witness :
    countOcc jsonFlag
      (normalizeCommandV2 ("me").toList ("force:data:soql:query").toList) = 1 ∧
    countOcc targetFlagHead
      (normalizeCommandV2 ("me").toList ("force:data:soql:query").toList) = 1 := by
  have h := executor_normalization_flags ("me").toList
    ("force:data:soql:query").toList
    (by decide) (by decide) (by decide) (by decide) (by decide) (by decide)
  exact ⟨h.1, h.2.1⟩

end SfdxBulkHelper
